import Mathlib

/-!
# Verification of the Da-P_Satulon CA-2D core

Shallow embedding of the repository's core algorithms:
* `code/ca_2d/grid.py` — the `CA2D` class (constructor, single update step,
  boundary conditions, interaction-strength clamping);
* `code/ca_2d/info_cond.py` — conductivity metrics (`simple_conductivity`,
  `entropy_conductivity`, `temporal_conductivity`);
* `monitoring/critical_exponent_monitor.py` — the critical-exponent scan
  driver, the ν/β estimators and the alert evaluator.

Grid cell values and scan series are modelled as exact rationals (`ℚ`);
the transcendental parts (`np.log`, `np.log2`) are modelled over `ℝ` with
`Real.log` / `Real.logb`.  Fallible numpy operations are modelled with
`Except`.
-/

/-- Errors raised by numpy / Python in the modelled code paths. -/
inductive NpError where
  | valueError : NpError
  | indexError : NpError
deriving DecidableEq, Repr

/-! ## Grid update (`CA2D._single_update`, `CA2D._apply_boundary_conditions`)

A grid state is a function `ℕ → ℕ → ℚ`; only indices `i < h`, `j < w`
are meaningful.  `interiorUpdate` is the double loop of `_single_update`
(`for i in range(1, h-1): for j in range(1, w-1)`), which blends each
interior cell with the mean of its 4-neighbourhood.  `applyBoundary` is
`_apply_boundary_conditions`: the four numpy assignments
`grid[0,:] = grid[1,:]`, `grid[h-1,:] = grid[h-2,:]`, `grid[:,0] = grid[:,1]`,
`grid[:,w-1] = grid[:,w-2]` executed sequentially in-place, which the
nested `b1`–`b4` functions reproduce (each reads the state left by the
previous assignment). -/

def interiorUpdate (h w : ℕ) (ρ : ℚ) (g : ℕ → ℕ → ℚ) : ℕ → ℕ → ℚ :=
  fun i j =>
    if 1 ≤ i ∧ i + 1 < h ∧ 1 ≤ j ∧ j + 1 < w then
      g i j * (1 - ρ) + ((g (i-1) j + g (i+1) j + g i (j-1) + g i (j+1)) / 4) * ρ
    else g i j

def applyBoundary (h w : ℕ) (g : ℕ → ℕ → ℚ) : ℕ → ℕ → ℚ :=
  let b1 := fun i j => if i = 0 then g 1 j else g i j
  let b2 := fun i j => if i = h - 1 then b1 (h - 2) j else b1 i j
  let b3 := fun i j => if j = 0 then b2 i 1 else b2 i j
  fun i j => if j = w - 1 then b3 i (w - 2) else b3 i j

/-- `CA2D._single_update`: interior diffusion step followed by the
boundary-condition pass on the new grid. -/
def singleUpdate (h w : ℕ) (ρ : ℚ) (g : ℕ → ℕ → ℚ) : ℕ → ℕ → ℚ :=
  applyBoundary h w (interiorUpdate h w ρ g)

/-! ## The `CA2D` class state and constructor (`grid.py`)

`CA2D.__init__` stores `grid_size`, clamps `interaction_strength` to
`[0,1]` via `max(0.0, min(1.0, interaction_strength))`, then fills the
grid from the random source (`np.random.random(grid_size)`, which raises
`ValueError` for a negative dimension and accepts zero dimensions) and
appends the initial state to the history.  The random source is external
(§6 of the spec): the freshly drawn initial grid is a parameter here.
There is no validation of non-positive sizes in `__init__` itself, and
`interaction_strength` is a plain attribute (no property / descriptor in
the class), so a later assignment such as the monitor's
`ca.interaction_strength = p` stores the raw value. -/

structure CA2D where
  gridSize : ℤ × ℤ
  interactionStrength : ℚ
  grid : ℕ → ℕ → ℚ
  history : List (ℕ → ℕ → ℚ)

def CA2D.init (h w : ℤ) (strength : ℚ) (randomGrid : ℕ → ℕ → ℚ) :
    Except NpError CA2D :=
  if h < 0 ∨ w < 0 then .error .valueError
  else .ok ⟨(h, w), max 0 (min 1 strength), randomGrid, [randomGrid]⟩

/-- A plain Python attribute assignment `ca.interaction_strength = v`
(as performed by `CriticalExponentMonitor.measure_critical_exponents`):
stores `v` unmodified. -/
def CA2D.setInteractionStrength (ca : CA2D) (v : ℚ) : CA2D :=
  { ca with interactionStrength := v }

/-! ## Conductivity metrics (`code/ca_2d/info_cond.py`)

Grid states are `List (List ℚ)` here (the numpy arrays the metric
functions receive).  `np.mean` / `np.var` are the exact rational mean and
population variance.  `entropy_conductivity` (default
`method='histogram'`) calls `np.histogram(flat, bins=bins, density=True)`:
equal-width bins over `[min, max]` (numpy widens a zero-width range to
`[min - 0.5, max + 0.5]`), and `density=True` divides each count by
`total_count * bin_width`.  The returned densities (not probabilities)
are filtered to the positive ones and fed into
`-Σ d * log2(d + 1e-12)`, normalized by `log2(bins)`. -/

def npMean (xs : List ℚ) : ℚ := xs.sum / xs.length

def npVar (xs : List ℚ) : ℚ := npMean (xs.map (fun x => (x - npMean xs) ^ 2))

/-- `simple_conductivity`: mean of all cells. -/
def simpleConductivity (g : List (List ℚ)) : ℚ := npMean g.flatten

def listMin : List ℚ → ℚ
  | [] => 0
  | x :: xs => xs.foldl min x

def listMax : List ℚ → ℚ
  | [] => 0
  | x :: xs => xs.foldl max x

/-- The outer edges `np.histogram` uses: the observed value range,
widened by 0.5 on each side when it is degenerate. -/
def histEdges (xs : List ℚ) : ℚ × ℚ :=
  let mn := listMin xs
  let mx := listMax xs
  if mn = mx then (mn - 1/2, mx + 1/2) else (mn, mx)

/-- Bin index of a value `x ∈ [lo, hi]` among `bins` equal-width bins
(the last bin is closed, so the top value lands in bin `bins - 1`). -/
def binIndex (lo hi : ℚ) (bins : ℕ) (x : ℚ) : ℕ :=
  min (bins - 1) (⌊(x - lo) * bins / (hi - lo)⌋).toNat

/-- The density array of `np.histogram(xs, bins, density=True)`:
`count_k / (len(xs) * bin_width)` for each bin `k`. -/
def histDensities (xs : List ℚ) (bins : ℕ) : List ℚ :=
  let lo := (histEdges xs).1
  let hi := (histEdges xs).2
  (List.range bins).map (fun k =>
    ((xs.countP (fun x => binIndex lo hi bins x == k) : ℚ) * bins) /
      ((xs.length : ℚ) * (hi - lo)))

/-- `entropy_conductivity(grid, bins, method='histogram')` on the
flattened state `xs`:  keep the positive histogram densities, compute
`-Σ d * log2(d + 1e-12)` and divide by `log2(bins)` when that is
positive. -/
noncomputable def entropyConductivity (xs : List ℚ) (bins : ℕ) : ℝ :=
  let densities := (histDensities xs bins).filter (fun d => decide (0 < d))
  let ent : ℝ :=
    -((densities.map (fun d : ℚ =>
        (d : ℝ) * Real.logb 2 ((d : ℝ) + 1/1000000000000))).sum)
  let maxEnt : ℝ := Real.logb 2 (bins : ℝ)
  haveI := Classical.propDecidable
  if 0 < maxEnt then ent / maxEnt else 0

/-- `temporal_conductivity(history)` with the default
`method='variance'`: with fewer than 2 states it warns and returns the
one-element series `[simple_conductivity(history[0])]` — indexing that
raises `IndexError` on an empty history; otherwise one population
variance per state.  The boolean records whether `warnings.warn` fired. -/
def temporalConductivity (hist : List (List (List ℚ))) :
    Except NpError (List ℚ × Bool) :=
  if hist.length < 2 then
    match hist with
    | [] => .error .indexError
    | g :: _ => .ok ([simpleConductivity g], true)
  else
    .ok (hist.map (fun g => npVar g.flatten), false)

/-! ## Critical-exponent scan driver
(`CriticalExponentMonitor.measure_critical_exponents`)

The driver picks an interaction-strength axis and an effective iteration
count, then runs one and the same per-value measurement procedure at
every axis value.  The per-value body (equilibration steps, entropy
conductivity samples, susceptibility) is abstracted as the parameter
`measureAt`, because it is the identical block of source code in both
modes; only the axis and the iteration count depend on `quick_mode`:
`iterations = min(iterations, 20)` under `quick_mode`, and
`np.linspace(0.007, 0.013, 13)` versus `np.linspace(0.008, 0.012, 7)`. -/

/-- `np.linspace(a, b, n)`: `n` evenly spaced points from `a` to `b`
inclusive (`n = 1` gives `[a]`). -/
def npLinspace (a b : ℚ) (n : ℕ) : List ℚ :=
  if n ≤ 1 then (List.range n).map (fun _ => a)
  else (List.range n).map (fun i => a + (b - a) * i / (n - 1))

def measureScan {α : Type} (quickMode : Bool) (iterations : ℕ)
    (measureAt : ℚ → ℕ → α) : List α :=
  let iters := if quickMode then min iterations 20 else iterations
  let ps := if quickMode then npLinspace (8/1000) (12/1000) 7
            else npLinspace (7/1000) (13/1000) 13
  ps.map (fun p => measureAt p iters)

/-! ## Exponent estimation
(`CriticalExponentMonitor._analyze_critical_behavior`)

Scan series are exact rational lists; only the final `np.log`-based
formulas live in `ℝ`.  `idxOfMax` is `np.argmax` (first occurrence of
the maximum; 0 on an empty array, where numpy would raise). -/

def idxOfMaxAux : List ℚ → ℕ → ℕ → ℚ → ℕ
  | [], _, best, _ => best
  | x :: xs, i, best, bv =>
      if bv < x then idxOfMaxAux xs (i+1) i x else idxOfMaxAux xs (i+1) best bv

def idxOfMax : List ℚ → ℕ
  | [] => 0
  | x :: xs => idxOfMaxAux xs 1 0 x

/-- The ν estimate of `_analyze_critical_behavior`, translated from the
source: `half_max = conductivities[peak]/2`;
`left_indices = np.where(conductivities[:peak] >= half_max)[0]`;
`right_indices = np.where(conductivities[peak:] >= half_max)[0] + peak`;
if both are nonempty and `peak_width = p[right[-1]] - p[left[-1]] > 0`
then `1 / (log(L) / log(1/peak_width))` clamped to `[0.1, 1.0]`,
otherwise the fallback `0.34`. -/
noncomputable def nuFromScan (ps cs : List ℚ) (L : ℕ) : ℝ :=
  let peak := idxOfMax cs
  let halfMax := cs.getD peak 0 / 2
  let lefts := (List.range peak).filter (fun i => decide (halfMax ≤ cs.getD i 0))
  let rights := ((List.range (cs.length - peak)).map (fun k => k + peak)).filter
      (fun i => decide (halfMax ≤ cs.getD i 0))
  match lefts.getLast?, rights.getLast? with
  | some li, some ri =>
      let width := ps.getD ri 0 - ps.getD li 0
      if 0 < width then
        max (1/10) (min 1 (1 / (Real.log (L : ℝ) / Real.log (1 / (width : ℝ)))))
      else 34/100
  | _, _ => 34/100

/-- The ν estimate as the claim words it: take the *rightmost* index
strictly left of the peak whose conductivity is at least `half_max`
(scan the index range from the right), and the rightmost index at or
after the peak with the same property; then the same width test,
formula and clamp. -/
noncomputable def nuSpec (ps cs : List ℚ) (L : ℕ) : ℝ :=
  let peak := idxOfMax cs
  let halfMax := cs.getD peak 0 / 2
  let leftB := (List.range peak).reverse.find?
      (fun i => decide (halfMax ≤ cs.getD i 0))
  let rightB := (List.range cs.length).reverse.find?
      (fun i => decide (peak ≤ i) && decide (halfMax ≤ cs.getD i 0))
  match leftB, rightB with
  | some li, some ri =>
      let width := ps.getD ri 0 - ps.getD li 0
      if 0 < width then
        max (1/10) (min 1 (1 / (Real.log (L : ℝ) / Real.log (1 / (width : ℝ)))))
      else 34/100
  | _, _ => 34/100

/-- The least-squares slope `np.polyfit(xs, ys, 1)[0]` in its
normal-equation form `(n·Σxy − Σx·Σy) / (n·Σx² − (Σx)²)` (0 when the
system is degenerate, where numpy would fall back to a least-norm
solution or raise — the source catches and keeps the default). -/
noncomputable def lsSlope (pts : List (ℝ × ℝ)) : ℝ :=
  let n : ℝ := pts.length
  let sx := (pts.map Prod.fst).sum
  let sy := (pts.map Prod.snd).sum
  let sxx := (pts.map (fun q => q.1 * q.1)).sum
  let sxy := (pts.map (fun q => q.1 * q.2)).sum
  (n * sxy - sx * sy) / (n * sxx - sx * sx)

/-- The textbook centered regression slope
`Σ(x−x̄)(y−ȳ) / Σ(x−x̄)²`, used by the spec-side β definitions. -/
noncomputable def lsSlopeCentered (pts : List (ℝ × ℝ)) : ℝ :=
  let n : ℝ := pts.length
  let xbar := (pts.map Prod.fst).sum / n
  let ybar := (pts.map Prod.snd).sum / n
  (pts.map (fun q => (q.1 - xbar) * (q.2 - ybar))).sum /
    (pts.map (fun q => (q.1 - xbar) * (q.1 - xbar))).sum

/-- The β estimate translated from the source.  Outer guard
`len(susceptibilities) > 3 and peak_idx > 0`; 5-point windows
`[max(0, peak-2), min(len(p_values), peak+3))` of `p_values` and
`susceptibilities`; inner guards `len(p_window) > 2 and any(chi > 0)`
and `sum(chi > 0) > 2`; then regress `log(chi)` on
`log(|p − p_c| + 1e-6)` over the valid pairs and clamp `−slope/2.5`
to `[0.1, 1.0]`.  Every failing guard keeps the default `0.37`. -/
noncomputable def betaFromScan (ps cs ss : List ℚ) : ℝ :=
  let peak := idxOfMax cs
  let pc := ps.getD peak 0
  if 3 < ss.length ∧ 0 < peak then
    let lo := peak - 2
    let hi := min ps.length (peak + 3)
    let pW := (ps.take hi).drop lo
    let sW := (ss.take hi).drop lo
    if 2 < pW.length ∧ sW.any (fun s => decide (0 < s)) then
      let pairs := (pW.zip sW).filter (fun q => decide (0 < q.2))
      if 2 < pairs.length then
        let pts := pairs.map (fun q =>
          (Real.log ((|q.1 - pc| + 1/1000000 : ℚ) : ℝ), Real.log ((q.2 : ℚ) : ℝ)))
        max (1/10) (min 1 (-(lsSlope pts) / (5/2)))
      else 37/100
    else 37/100
  else 37/100

/-- The β estimate exactly as the claim words it: always look at the
5-point window centered on the peak (clipped to the array bounds),
keep the pairs with positive susceptibility, and regress whenever at
least 3 such pairs exist — with no further precondition. -/
noncomputable def betaSpecClaim (ps cs ss : List ℚ) : ℝ :=
  let peak := idxOfMax cs
  let pc := ps.getD peak 0
  let lo := peak - 2
  let hi := min ps.length (peak + 3)
  let pairs := (((ps.take hi).drop lo).zip ((ss.take hi).drop lo)).filter
      (fun q => decide (0 < q.2))
  if 3 ≤ pairs.length then
    let pts := pairs.map (fun q =>
      (Real.log ((|q.1 - pc| + 1/1000000 : ℚ) : ℝ), Real.log ((q.2 : ℚ) : ℝ)))
    max (1/10) (min 1 (-(lsSlopeCentered pts) / (5/2)))
  else 37/100

/-- The β estimate as the amended claim words it: the claim's window /
valid-pair / regression / clamp procedure, but additionally requiring
the source's outer guard — more than 3 susceptibility entries and a
peak not at index 0. -/
noncomputable def betaSpecAmended (ps cs ss : List ℚ) : ℝ :=
  let peak := idxOfMax cs
  let pc := ps.getD peak 0
  let lo := peak - 2
  let hi := min ps.length (peak + 3)
  let pairs := (((ps.take hi).drop lo).zip ((ss.take hi).drop lo)).filter
      (fun q => decide (0 < q.2))
  if 3 < ss.length ∧ 0 < peak ∧ 3 ≤ pairs.length then
    let pts := pairs.map (fun q =>
      (Real.log ((|q.1 - pc| + 1/1000000 : ℚ) : ℝ), Real.log ((q.2 : ℚ) : ℝ)))
    max (1/10) (min 1 (-(lsSlopeCentered pts) / (5/2)))
  else 37/100

/-! ## Alert evaluation (`CriticalExponentMonitor.check_alerts`,
`ALERT_CONDITIONS`, `REFERENCE_VALUES`)

Only the fields `check_alerts` reads are modelled
(`nu`, `nu_error`, `beta`, `beta_error`, `critical_point` of the
measurement; `parameter`, `reference_value`, `tolerance_sigma`,
`severity` of a condition).  Timestamps and the formatted message string
are presentation glue and are omitted. -/

inductive Param where
  | nu
  | beta
  | criticalPoint
deriving DecidableEq, Repr, BEq

inductive Severity where
  | info
  | warning
  | critical
deriving DecidableEq, Repr

structure AlertCondition where
  parameter : Param
  referenceValue : ℚ
  toleranceSigma : ℕ
  severity : Severity
deriving DecidableEq, Repr

/-- `CriticalExponentMeasurement`, restricted to the numeric fields
`check_alerts` consumes. -/
structure Measurement where
  nu : ℚ
  nuError : ℚ
  beta : ℚ
  betaError : ℚ
  criticalPoint : ℚ
deriving DecidableEq, Repr

structure AlertRecord where
  parameter : Param
  value : ℚ
  error : ℚ
  reference : ℚ
  sigmaDeviation : ℚ
  severity : Severity
deriving DecidableEq, Repr

/-- `CriticalExponentMonitor.ALERT_CONDITIONS`. -/
def alertConditions : List AlertCondition :=
  [⟨.nu, 34/100, 3, .critical⟩,
   ⟨.criticalPoint, 91/10000, 3, .warning⟩,
   ⟨.beta, 37/100, 2, .warning⟩]

/-- The `values` dictionary built in `check_alerts`:
`nu → (m.nu, m.nu_error)`, `beta → (m.beta, m.beta_error)`,
`critical_point → (m.critical_point, 0.0001)`. -/
def measuredValue (m : Measurement) : Param → ℚ
  | .nu => m.nu
  | .beta => m.beta
  | .criticalPoint => m.criticalPoint

def measuredError (m : Measurement) : Param → ℚ
  | .nu => m.nuError
  | .beta => m.betaError
  | .criticalPoint => 1/10000

/-- The tolerance `check_alerts` selects per parameter:
`REFERENCE_VALUES['nu_error'] = 0.01`,
`REFERENCE_VALUES['beta_error'] = 0.02`, and
`REFERENCE_VALUES['critical_point_error'] = 0.0001` for the remaining
parameter. -/
def toleranceFor : Param → ℚ
  | .nu => 1/100
  | .beta => 2/100
  | .criticalPoint => 1/10000

/-- `sigma_deviation = |value - reference| / tolerance` (0 when the
tolerance is not positive). -/
def sigmaFor (m : Measurement) (c : AlertCondition) : ℚ :=
  if 0 < toleranceFor c.parameter then
    |measuredValue m c.parameter - c.referenceValue| / toleranceFor c.parameter
  else 0

/-- The alert record `check_alerts` appends for a fired condition. -/
def mkAlert (m : Measurement) (c : AlertCondition) : AlertRecord :=
  ⟨c.parameter, measuredValue m c.parameter, measuredError m c.parameter,
    c.referenceValue, sigmaFor m c, c.severity⟩

/-- `check_alerts`: for each table entry, emit its alert record
exactly when `sigma_deviation > tolerance_sigma`. -/
def checkAlerts (m : Measurement) : List AlertRecord :=
  alertConditions.filterMap (fun c =>
    if (c.toleranceSigma : ℚ) < sigmaFor m c then some (mkAlert m c) else none)

/-! ## Theorems -/

/-- C7 (counterexample): after constructing a grid, a plain assignment
to `interaction_strength` (as the monitor performs) stores the raw
value: assigning `1.5` leaves the field at `1.5 > 1`, so the field is
not clamped at every later assignment. -/
theorem interaction_strength_assignment_unclamped :
    ((CA2D.init 3 3 (1/2) (fun _ _ => 0)).map
        (fun ca => (ca.setInteractionStrength (3/2)).interactionStrength))
      = Except.ok (3/2)
    ∧ ¬ ((3/2 : ℚ) ≤ 1) :=
  ⟨rfl, by norm_num⟩

/-- C7 (amended): the interaction strength is clamped to `[0,1]` at
construction — `-0.1` yields `0.0` and `1.5` yields `1.0` — but a later
plain assignment to the field stores the raw, unclamped value. -/
theorem interaction_strength_clamped_at_construction :
    ∀ (h w : ℤ) (strength : ℚ) (g : ℕ → ℕ → ℚ),
      ((CA2D.init h w strength g).map (fun ca => ca.interactionStrength)
          = if h < 0 ∨ w < 0 then Except.error NpError.valueError
            else Except.ok (max 0 (min 1 strength)))
      ∧ (0 ≤ max 0 (min 1 strength) ∧ max 0 (min 1 strength) ≤ 1)
      ∧ ((CA2D.init 3 3 (-1/10) g).map (fun ca => ca.interactionStrength)
          = Except.ok 0)
      ∧ ((CA2D.init 3 3 (3/2) g).map (fun ca => ca.interactionStrength)
          = Except.ok 1)
      ∧ (∀ (ca : CA2D) (v : ℚ),
          (ca.setInteractionStrength v).interactionStrength = v) := by
  intro h w strength g
  refine ⟨?_, ⟨le_max_left _ _, max_le (by norm_num) (min_le_left _ _)⟩, ?_, ?_, fun ca v => rfl⟩
  · unfold CA2D.init
    split_ifs with hc <;> rfl
  · show Except.ok (max 0 (min 1 (-1/10))) = _
    norm_num
  · show Except.ok (max 0 (min 1 (3/2))) = _
    norm_num

/-- C8 (counterexample): constructing a grid with height `0` succeeds
(numpy accepts a zero dimension and yields an empty array), so
non-positive sizes are not rejected with an `InvalidArgument` error. -/
theorem init_zero_dims_succeeds :
    (CA2D.init 0 5 (1/2) (fun _ _ => 0)).map (fun ca => ca.gridSize)
      = Except.ok (0, 5) :=
  rfl

/-- C8 (amended): construction fails — with numpy's `ValueError`, the
only validation present — exactly when the height or width is negative;
zero sizes are accepted. -/
theorem init_error_iff_negative_dims :
    ∀ (h w : ℤ) (strength : ℚ) (g : ℕ → ℕ → ℚ),
      CA2D.init h w strength g = Except.error NpError.valueError
        ↔ (h < 0 ∨ w < 0) := by
  intro h w strength g
  unfold CA2D.init
  split_ifs with hc <;> simp [hc]

/-- C9 (counterexample): `temporal_conductivity` of an *empty* history
fails hard with `IndexError` (it indexes `history[0]` after the
`len < 2` test), rather than returning a warning-tagged series. -/
theorem temporal_conductivity_empty_raises :
    temporalConductivity [] = Except.error NpError.indexError :=
  rfl

/-- C9 (amended): on a single-state history, `temporal_conductivity`
returns the 1-element series `[simple_conductivity(state)]` together
with a recorded warning; only the empty history fails hard. -/
theorem temporal_conductivity_singleton_warns :
    ∀ g : List (List ℚ),
      temporalConductivity [g] = Except.ok ([simpleConductivity g], true) :=
  fun _ => rfl

/-- C2 (counterexample): with an iteration budget of 50, `quick_mode`
runs a *different* interaction-strength axis (7 points instead of 13)
and an effective iteration count of `min(50, 20) = 20` at every axis
point, not the halved budget `max(1, 50 / 2) = 25`. -/
theorem quick_mode_not_only_sample_count :
    (measureScan true 50 (fun p _ => p)).length = 7
    ∧ (measureScan false 50 (fun p _ => p)).length = 13
    ∧ measureScan true 50 (fun _ iters => iters) = List.replicate 7 20
    ∧ (20 : ℕ) ≠ max 1 (50 / 2) :=
  ⟨rfl, rfl, rfl, by decide⟩

/-- C2 (amended): `quick_mode` keeps the per-value measurement
procedure but caps the iteration budget at 20 (`min(iterations, 20)`)
and replaces the 13-point axis `linspace(0.007, 0.013, 13)` by the
7-point axis `linspace(0.008, 0.012, 7)` (endpoints shown below). -/
theorem quick_mode_axis_and_cap :
    ∀ {α : Type} (f : ℚ → ℕ → α) (iterations : ℕ),
      measureScan true iterations f
          = (npLinspace (8/1000) (12/1000) 7).map
              (fun p => f p (min iterations 20))
      ∧ measureScan false iterations f
          = (npLinspace (7/1000) (13/1000) 13).map (fun p => f p iterations)
      ∧ (npLinspace (8/1000) (12/1000) 7).getD 0 0 = 8/1000
      ∧ (npLinspace (8/1000) (12/1000) 7).getD 6 0 = 12/1000
      ∧ (npLinspace (7/1000) (13/1000) 13).getD 0 0 = 7/1000
      ∧ (npLinspace (7/1000) (13/1000) 13).getD 12 0 = 13/1000 := by
  intro α f iterations
  refine ⟨rfl, rfl, ?_, ?_, ?_, ?_⟩ <;>
    (simp [npLinspace, List.range_succ] <;> norm_num)

lemma interiorUpdate_mem (h w : ℕ) (ρ : ℚ) (g : ℕ → ℕ → ℚ)
    (hρ0 : 0 ≤ ρ) (hρ1 : ρ ≤ 1)
    (hg : ∀ i < h, ∀ j < w, 0 ≤ g i j ∧ g i j ≤ 1) :
    ∀ i < h, ∀ j < w,
      0 ≤ interiorUpdate h w ρ g i j ∧ interiorUpdate h w ρ g i j ≤ 1 := by
  intro i hi j hj
  unfold interiorUpdate
  split_ifs with hc
  · obtain ⟨h1, h2, h3, h4⟩ := hc
    have hij := hg i hi j hj
    have hup := hg (i-1) (by omega) j hj
    have hdn := hg (i+1) (by omega) j hj
    have hlf := hg i hi (j-1) (by omega)
    have hrt := hg i hi (j+1) (by omega)
    have havg0 : 0 ≤ (g (i-1) j + g (i+1) j + g i (j-1) + g i (j+1)) / 4 := by
      apply div_nonneg _ (by norm_num)
      linarith [hup.1, hdn.1, hlf.1, hrt.1]
    have havg1 : (g (i-1) j + g (i+1) j + g i (j-1) + g i (j+1)) / 4 ≤ 1 := by
      rw [div_le_one (by norm_num)]
      linarith [hup.2, hdn.2, hlf.2, hrt.2]
    constructor
    · have t1 : 0 ≤ g i j * (1 - ρ) := mul_nonneg hij.1 (by linarith)
      have t2 : 0 ≤ (g (i-1) j + g (i+1) j + g i (j-1) + g i (j+1)) / 4 * ρ :=
        mul_nonneg havg0 hρ0
      linarith
    · nlinarith [mul_nonneg (sub_nonneg.mpr hij.2) (sub_nonneg.mpr hρ1),
        mul_nonneg (sub_nonneg.mpr havg1) hρ0]
  · exact hg i hi j hj

/-- C1: for a grid with `H, W ≥ 3`, all cells in `[0,1]` and interaction
strength `ρ ∈ [0,1]`, every cell after one `_single_update` (interior
diffusion followed by the boundary pass) again lies in `[0,1]`.  The
model is exact rational arithmetic, so no NaN or overflow can occur. -/
theorem grid_step_preserves_unit_interval
    (h w : ℕ) (ρ : ℚ) (g : ℕ → ℕ → ℚ)
    (hh : 3 ≤ h) (hw : 3 ≤ w) (hρ0 : 0 ≤ ρ) (hρ1 : ρ ≤ 1)
    (hg : ∀ i < h, ∀ j < w, 0 ≤ g i j ∧ g i j ≤ 1) :
    ∀ i < h, ∀ j < w,
      0 ≤ singleUpdate h w ρ g i j ∧ singleUpdate h w ρ g i j ≤ 1 := by
  have hu := interiorUpdate_mem h w ρ g hρ0 hρ1 hg
  intro i hi j hj
  simp only [singleUpdate, applyBoundary]
  split_ifs <;> exact hu _ (by omega) _ (by omega)

/-- C1 (witness): the bound-preservation theorem applied to the
all-zero 3×3 grid with interaction strength 0. -/
theorem grid_step_preserves_unit_interval_witness :
    0 ≤ singleUpdate 3 3 0 (fun _ _ => 0) 1 1
    ∧ singleUpdate 3 3 0 (fun _ _ => 0) 1 1 ≤ 1 :=
  grid_step_preserves_unit_interval 3 3 0 (fun _ _ => 0)
    (le_refl 3) (le_refl 3) (le_refl 0) zero_le_one
    (fun _ _ _ _ => ⟨le_refl 0, zero_le_one⟩)
    1 (by decide) 1 (by decide)

/-- C10: after one `_single_update` on a grid with `H, W ≥ 2`, the
boundaries mirror the adjacent rows/columns (row 0 = row 1,
row H-1 = row H-2, column 0 = column 1, column W-1 = column W-2);
consequently, if a step (even with interaction strength 0) acts as the
identity on the grid, the grid already satisfied those boundary
equalities. -/
theorem step_boundary_mirroring
    (h w : ℕ) (ρ : ℚ) (g : ℕ → ℕ → ℚ) (hh : 2 ≤ h) (hw : 2 ≤ w) :
    (∀ j, singleUpdate h w ρ g 0 j = singleUpdate h w ρ g 1 j)
    ∧ (∀ j, singleUpdate h w ρ g (h-1) j = singleUpdate h w ρ g (h-2) j)
    ∧ (∀ i, singleUpdate h w ρ g i 0 = singleUpdate h w ρ g i 1)
    ∧ (∀ i, singleUpdate h w ρ g i (w-1) = singleUpdate h w ρ g i (w-2))
    ∧ (ρ = 0 →
        (∀ i < h, ∀ j < w, singleUpdate h w ρ g i j = g i j) →
        (∀ j < w, g 0 j = g 1 j) ∧ (∀ j < w, g (h-1) j = g (h-2) j)
        ∧ (∀ i < h, g i 0 = g i 1) ∧ (∀ i < h, g i (w-1) = g i (w-2))) := by
  have P1 : ∀ j, singleUpdate h w ρ g 0 j = singleUpdate h w ρ g 1 j := by
    intro j
    simp only [singleUpdate, applyBoundary]
    split_ifs <;> first | rfl | omega
  have P2 : ∀ j, singleUpdate h w ρ g (h-1) j = singleUpdate h w ρ g (h-2) j := by
    intro j
    simp only [singleUpdate, applyBoundary]
    split_ifs <;> rfl
  have P3 : ∀ i, singleUpdate h w ρ g i 0 = singleUpdate h w ρ g i 1 := by
    intro i
    simp only [singleUpdate, applyBoundary]
    split_ifs <;> first | rfl | omega
  have P4 : ∀ i, singleUpdate h w ρ g i (w-1) = singleUpdate h w ρ g i (w-2) := by
    intro i
    simp only [singleUpdate, applyBoundary]
    split_ifs <;> rfl
  refine ⟨P1, P2, P3, P4, fun _ hid => ⟨?_, ?_, ?_, ?_⟩⟩
  · intro j hj
    rw [← hid 0 (by omega) j hj, ← hid 1 (by omega) j hj, P1]
  · intro j hj
    rw [← hid (h-1) (by omega) j hj, ← hid (h-2) (by omega) j hj, P2]
  · intro i hi
    rw [← hid i hi 0 (by omega), ← hid i hi 1 (by omega), P3]
  · intro i hi
    rw [← hid i hi (w-1) (by omega), ← hid i hi (w-2) (by omega), P4]

/-- C10 (witness): the mirroring theorem applied to a 2×2 grid with
interaction strength 1/2 and a non-mirrored initial state. -/
theorem step_boundary_mirroring_witness :
    singleUpdate 2 2 (1/2) (fun i j => (i : ℚ) + j) 0 0
      = singleUpdate 2 2 (1/2) (fun i j => (i : ℚ) + j) 1 0 :=
  (step_boundary_mirroring 2 2 (1/2) (fun i j => (i : ℚ) + j)
    (le_refl 2) (le_refl 2)).1 0

/-- C6: for every measurement and every entry of the fixed alert table,
`check_alerts` emits that entry's alert record (with its severity and
`sigma = |measured - reference| / tolerance`) exactly when `sigma`
exceeds the entry's sigma threshold; a measurement with `nu = 0.50`
yields exactly the one critical alert for `nu` (sigma 16), and one with
`nu = 0.341` yields no alert for `nu`. -/
theorem check_alerts_iff_sigma_exceeds (m : Measurement) :
    (∀ c ∈ alertConditions,
      (mkAlert m c ∈ checkAlerts m ↔ (c.toleranceSigma : ℚ) < sigmaFor m c))
    ∧ (m.nu = 1/2 →
        (checkAlerts m).filter (fun a => decide (a.parameter = Param.nu))
          = [⟨Param.nu, 1/2, m.nuError, 34/100, 16, Severity.critical⟩])
    ∧ (m.nu = 341/1000 →
        (checkAlerts m).filter (fun a => decide (a.parameter = Param.nu))
          = []) := by
  have hσnu : sigmaFor m ⟨Param.nu, 34/100, 3, Severity.critical⟩
      = |m.nu - 34/100| / (1/100) := by
    simp [sigmaFor, toleranceFor, measuredValue]
  refine ⟨?_, ?_, ?_⟩
  · intro c hc
    simp only [alertConditions, List.mem_cons, List.not_mem_nil, or_false] at hc
    rcases hc with rfl | rfl | rfl <;>
      · simp only [checkAlerts, alertConditions, List.filterMap_cons,
          List.filterMap_nil]
        split_ifs <;>
          simp_all [mkAlert, measuredValue, measuredError]
  · intro hnu
    have h1 : ((3 : ℕ) : ℚ) <
        sigmaFor m ⟨Param.nu, 34/100, 3, Severity.critical⟩ := by
      rw [hσnu, hnu, abs_of_nonneg (by norm_num : (0:ℚ) ≤ 1/2 - 34/100)]
      norm_num
    have hs : sigmaFor m ⟨Param.nu, 34/100, 3, Severity.critical⟩ = 16 := by
      rw [hσnu, hnu, abs_of_nonneg (by norm_num : (0:ℚ) ≤ 1/2 - 34/100)]
      norm_num
    simp only [checkAlerts, alertConditions, List.filterMap_cons,
      List.filterMap_nil]
    split_ifs with a1 a2 a3 <;>
      simp_all [mkAlert, measuredValue, measuredError, List.filter]
  · intro hnu
    have h1 : ¬ (((3 : ℕ) : ℚ) <
        sigmaFor m ⟨Param.nu, 34/100, 3, Severity.critical⟩) := by
      rw [hσnu, hnu, abs_of_nonneg (by norm_num : (0:ℚ) ≤ 341/1000 - 34/100)]
      norm_num
    simp only [checkAlerts, alertConditions, List.filterMap_cons,
      List.filterMap_nil]
    split_ifs <;>
      simp_all [mkAlert, measuredValue, measuredError, List.filter]

/-- C6 (witness): the alert-table theorem applied to two concrete
measurements, one with `nu = 0.50` and one with `nu = 0.341`. -/
theorem check_alerts_iff_sigma_exceeds_witness :
    ((checkAlerts ⟨1/2, 1/100, 37/100, 3/100, 91/10000⟩).filter
        (fun a => decide (a.parameter = Param.nu))
      = [⟨Param.nu, 1/2, 1/100, 34/100, 16, Severity.critical⟩])
    ∧ ((checkAlerts ⟨341/1000, 1/100, 37/100, 3/100, 91/10000⟩).filter
        (fun a => decide (a.parameter = Param.nu)) = []) :=
  ⟨(check_alerts_iff_sigma_exceeds ⟨1/2, 1/100, 37/100, 3/100, 91/10000⟩).2.1 rfl,
   (check_alerts_iff_sigma_exceeds ⟨341/1000, 1/100, 37/100, 3/100, 91/10000⟩).2.2 rfl⟩

lemma foldl_min_replicate (x : ℚ) : ∀ k : ℕ, (List.replicate k x).foldl min x = x
  | 0 => rfl
  | k + 1 => by
      rw [List.replicate_succ, List.foldl_cons, min_self]
      exact foldl_min_replicate x k

lemma foldl_max_replicate (x : ℚ) : ∀ k : ℕ, (List.replicate k x).foldl max x = x
  | 0 => rfl
  | k + 1 => by
      rw [List.replicate_succ, List.foldl_cons, max_self]
      exact foldl_max_replicate x k

lemma listMin_replicate (x : ℚ) (k : ℕ) : listMin (List.replicate (k+1) x) = x := by
  rw [List.replicate_succ]
  show (List.replicate k x).foldl min x = x
  exact foldl_min_replicate x k

lemma listMax_replicate (x : ℚ) (k : ℕ) : listMax (List.replicate (k+1) x) = x := by
  rw [List.replicate_succ]
  show (List.replicate k x).foldl max x = x
  exact foldl_max_replicate x k

lemma histDensities_const :
    histDensities (List.replicate 25 (1/2)) 10
      = (List.range 10).map (fun k => if k = 5 then 10 else 0) := by
  have hmin : listMin (List.replicate 25 (1/2)) = 1/2 := listMin_replicate (1/2) 24
  have hmax : listMax (List.replicate 25 (1/2)) = 1/2 := listMax_replicate (1/2) 24
  have hedges : histEdges (List.replicate 25 (1/2)) = (1/2 - 1/2, 1/2 + 1/2) := by
    unfold histEdges
    rw [hmin, hmax, if_pos rfl]
  simp only [histDensities, hedges]
  apply List.map_congr_left
  intro k hk
  have hbin : binIndex (1/2 - 1/2) (1/2 + 1/2) 10 (1/2) = 5 := by
    unfold binIndex
    norm_num
    rfl
  rw [List.countP_replicate]
  simp only [hbin, List.length_replicate]
  by_cases h5 : k = 5
  · subst h5
    norm_num
  · rw [if_neg (by simpa using Ne.symm h5), if_neg h5]
    norm_num

/-- C3: the claim (and the repository's own test
`test_utils.py::test_entropy_method`, which asserts a non-negative
value on `np.full((5,5), 0.5)`) says the entropy conductivity is a
normalized Shannon entropy in `[0,1]`, equal to `0.0` on a constant
grid.  The code instead feeds `np.histogram(..., density=True)`
*densities* (which sum to `bins / range`, not 1) into the entropy
formula: on the constant 5×5 grid of `0.5` the single nonzero density
is `10`, and the result is `-10·log2(10 + 1e-12)/log2(10) ≈ -10 < 0`. -/
theorem entropy_conductivity_constant_grid_negative :
    entropyConductivity (List.replicate 25 (1/2)) 10 < 0 := by
  have hfil : (((List.range 10).map (fun k => if k = 5 then (10:ℚ) else 0)).filter
      (fun d => decide (0 < d))) = [10] := by
    rw [List.filter_map]
    have hf : ((List.range 10).filter
        ((fun d => decide ((0:ℚ) < d)) ∘ (fun k => if k = 5 then (10:ℚ) else 0)))
        = [5] := by decide
    rw [hf]
    simp
  simp only [entropyConductivity, histDensities_const, hfil]
  rw [if_pos (Real.logb_pos (by norm_num) (by norm_num))]
  apply div_neg_of_neg_of_pos
  · rw [neg_lt_zero]
    simp only [List.map_cons, List.map_nil, List.sum_cons, List.sum_nil, add_zero]
    push_cast
    exact mul_pos (by norm_num) (Real.logb_pos (by norm_num) (by norm_num))
  · exact Real.logb_pos (by norm_num) (by norm_num)

lemma getLast?_or {α : Type} (a : α) (l : List α) :
    (a :: l).getLast? = l.getLast?.or (some a) := by
  cases l with
  | nil => rfl
  | cons b t =>
    rw [List.getLast?_cons_cons]
    obtain ⟨v, hv⟩ := Option.isSome_iff_exists.mp
      (List.getLast?_isSome.mpr (List.cons_ne_nil b t))
    rw [hv]
    rfl

/-- Scanning a list from the right for the first hit of `p` is the same
as taking the last element of the `p`-filtered list. -/
lemma find?_reverse {α : Type} (l : List α) (p : α → Bool) :
    l.reverse.find? p = (l.filter p).getLast? := by
  induction l with
  | nil => rfl
  | cons x t ih =>
    rw [List.reverse_cons, List.find?_append, ih, List.filter_cons]
    by_cases hp : p x
    · rw [if_pos hp, getLast?_or]
      have : List.find? p [x] = some x := by simp [List.find?_cons, hp]
      rw [this]
    · rw [if_neg hp]
      have : List.find? p [x] = none := by simp [List.find?_cons, hp]
      rw [this, Option.or_none]

/-- The index list `np.where(xs[peak:] ≥ t)[0] + peak` (indices of a
shifted range satisfying `p`) is the `≥ peak` part of the filtered full
range. -/
lemma filter_range_shift (n peak : ℕ) (hpk : peak ≤ n) (p : ℕ → Bool) :
    ((List.range (n - peak)).map (fun k => k + peak)).filter p
      = (List.range n).filter (fun i => decide (peak ≤ i) && p i) := by
  conv_rhs => rw [show n = peak + (n - peak) by omega, List.range_add]
  rw [List.filter_append]
  have h1 : (List.range peak).filter (fun i => decide (peak ≤ i) && p i) = [] := by
    apply List.filter_eq_nil_iff.mpr
    intro a ha
    have : a < peak := List.mem_range.mp ha
    simp [Nat.not_le.mpr this]
  rw [h1, List.nil_append, List.filter_map, List.filter_map]
  have hfun : ∀ a ∈ List.range (n - peak),
      ((fun i => decide (peak ≤ i) && p i) ∘ (fun x => peak + x)) a
        = (p ∘ (fun k => k + peak)) a := by
    intro a _
    have h : peak ≤ peak + a := Nat.le_add_right _ _
    simp [Function.comp, h, Nat.add_comm peak a]
  rw [List.filter_congr hfun]
  exact (List.map_congr_left (fun a _ => by omega)).symm

lemma idxOfMaxAux_lt (xs : List ℚ) : ∀ (i best : ℕ) (bv : ℚ), best < i →
    idxOfMaxAux xs i best bv < i + xs.length := by
  induction xs with
  | nil =>
    intro i best bv hb
    simp only [idxOfMaxAux, List.length_nil, Nat.add_zero]
    omega
  | cons x t ih =>
    intro i best bv hb
    simp only [idxOfMaxAux, List.length_cons]
    split_ifs
    · have := ih (i+1) i x (Nat.lt_succ_self i)
      omega
    · have := ih (i+1) best bv (by omega)
      omega

lemma idxOfMax_le_length (l : List ℚ) : idxOfMax l ≤ l.length := by
  cases l with
  | nil => simp [idxOfMax]
  | cons x t =>
    have := idxOfMaxAux_lt t 1 0 x (by omega)
    simp only [idxOfMax, List.length_cons]
    omega

/-- C4: the source ν estimate coincides with the claim's description
(rightmost half-max index strictly left of the peak, rightmost half-max
index at/after the peak, width test, `1/(ln L / ln(1/width))`, clamp),
and the returned ν always lies in `[0.1, 1.0]`. -/
theorem nu_estimate_spec_and_range (ps cs : List ℚ) (L : ℕ) :
    nuFromScan ps cs L = nuSpec ps cs L
    ∧ nuFromScan ps cs L ∈ Set.Icc (1/10 : ℝ) 1 := by
  constructor
  · simp only [nuFromScan, nuSpec]
    rw [find?_reverse, find?_reverse,
      ← filter_range_shift cs.length (idxOfMax cs) (idxOfMax_le_length cs)]
  · simp only [nuFromScan]
    split
    · split_ifs
      · exact Set.mem_Icc.mpr
          ⟨le_max_left _ _, max_le (by norm_num) (min_le_left _ _)⟩
      · exact Set.mem_Icc.mpr ⟨by norm_num, by norm_num⟩
    · exact Set.mem_Icc.mpr ⟨by norm_num, by norm_num⟩

lemma sum_shift_prod (pts : List (ℝ × ℝ)) (a b : ℝ) :
    (pts.map (fun q => (q.1 - a) * (q.2 - b))).sum
      = (pts.map (fun q => q.1 * q.2)).sum - a * (pts.map Prod.snd).sum
        - b * (pts.map Prod.fst).sum + pts.length * (a * b) := by
  induction pts with
  | nil => simp
  | cons q t ih =>
    simp only [List.map_cons, List.sum_cons, List.length_cons, ih]
    push_cast
    ring

lemma sum_shift_sq (pts : List (ℝ × ℝ)) (a : ℝ) :
    (pts.map (fun q => (q.1 - a) * (q.1 - a))).sum
      = (pts.map (fun q => q.1 * q.1)).sum - 2 * a * (pts.map Prod.fst).sum
        + pts.length * (a * a) := by
  induction pts with
  | nil => simp
  | cons q t ih =>
    simp only [List.map_cons, List.sum_cons, List.length_cons, ih]
    push_cast
    ring

/-- On a nonempty point list, the normal-equation slope
`(n·Σxy − Σx·Σy)/(n·Σx² − (Σx)²)` agrees with the centered regression
slope `Σ(x−x̄)(y−ȳ)/Σ(x−x̄)²`. -/
lemma lsSlope_eq_centered (pts : List (ℝ × ℝ)) (h : pts ≠ []) :
    lsSlope pts = lsSlopeCentered pts := by
  have hn : (pts.length : ℝ) ≠ 0 :=
    Nat.cast_ne_zero.mpr (List.length_pos.mpr h).ne'
  simp only [lsSlope, lsSlopeCentered]
  rw [sum_shift_prod, sum_shift_sq]
  set n := (pts.length : ℝ) with hdefn
  set sx := (pts.map Prod.fst).sum with hdefsx
  set sy := (pts.map Prod.snd).sum with hdefsy
  set sxx := (pts.map (fun q => q.1 * q.1)).sum with hdefsxx
  set sxy := (pts.map (fun q => q.1 * q.2)).sum with hdefsxy
  have e1 : sxy - sx / n * sy - sy / n * sx + n * (sx / n * (sy / n))
      = (n * sxy - sx * sy) / n := by
    field_simp
    ring
  have e2 : sxx - 2 * (sx / n) * sx + n * (sx / n * (sx / n))
      = (n * sxx - sx * sx) / n := by
    field_simp
    ring
  rw [e1, e2]
  rcases eq_or_ne (n * sxx - sx * sx) 0 with hd | hd
  · rw [hd]
    simp
  · have hbn : (n * sxx - sx * sx) / n ≠ 0 := div_ne_zero hd hn
    field_simp

lemma sum_snd_const (pts : List (ℝ × ℝ)) (c : ℝ) (hc : ∀ q ∈ pts, q.2 = c) :
    (pts.map Prod.snd).sum = pts.length * c := by
  induction pts with
  | nil => simp
  | cons q t ih =>
    simp only [List.map_cons, List.sum_cons, List.length_cons]
    rw [hc q (List.mem_cons_self q t),
      ih (fun r hr => hc r (List.mem_cons_of_mem q hr))]
    push_cast
    ring

lemma sum_mul_snd_const (pts : List (ℝ × ℝ)) (c : ℝ) (hc : ∀ q ∈ pts, q.2 = c) :
    (pts.map (fun q => q.1 * q.2)).sum = c * (pts.map Prod.fst).sum := by
  induction pts with
  | nil => simp
  | cons q t ih =>
    simp only [List.map_cons, List.sum_cons]
    rw [hc q (List.mem_cons_self q t),
      ih (fun r hr => hc r (List.mem_cons_of_mem q hr))]
    ring

/-- A regression on points whose y-values are all equal has slope 0. -/
lemma lsSlopeCentered_const_y (pts : List (ℝ × ℝ)) (c : ℝ)
    (hc : ∀ q ∈ pts, q.2 = c) : lsSlopeCentered pts = 0 := by
  rcases eq_or_ne pts [] with rfl | hne
  · simp [lsSlopeCentered]
  · have hn : (pts.length : ℝ) ≠ 0 :=
      Nat.cast_ne_zero.mpr (List.length_pos.mpr hne).ne'
    simp only [lsSlopeCentered]
    rw [sum_shift_prod, sum_snd_const pts c hc, sum_mul_snd_const pts c hc,
      div_eq_zero_iff]
    left
    field_simp
    ring

/-- C5 (counterexample): on the scan `p = [0.008, 0.009, 0.010]`,
conductivities `[0, 1, 0]`, susceptibilities `[1, 1, 1]`, all three
window points have positive susceptibility, so the claim's procedure
regresses (the constant `log χ = 0` gives slope 0) and clamps
`-0/2.5 = 0` up to `0.1`; the source instead returns the default `0.37`
because its unstated guard `len(susceptibilities) > 3` fails. -/
theorem beta_estimate_claim_counterexample :
    betaFromScan [8/1000, 9/1000, 10/1000] [0, 1, 0] [1, 1, 1] = 37/100
    ∧ betaSpecClaim [8/1000, 9/1000, 10/1000] [0, 1, 0] [1, 1, 1] = 1/10
    ∧ (37/100 : ℝ) ≠ 1/10 := by
  refine ⟨?_, ?_, by norm_num⟩
  · simp only [betaFromScan]
    rw [if_neg (by decide :
      ¬(3 < List.length ([1, 1, 1] : List ℚ) ∧ 0 < idxOfMax [0, 1, 0]))]
  · simp only [betaSpecClaim]
    rw [(by decide : idxOfMax [0, 1, 0] = 1)]
    rw [if_pos (by decide)]
    have hslope : lsSlopeCentered
        (((((([8/1000, 9/1000, 10/1000] : List ℚ).take
              (min (List.length ([8/1000, 9/1000, 10/1000] : List ℚ)) (1 + 3))).drop
                (1 - 2)).zip
            ((([1, 1, 1] : List ℚ).take
              (min (List.length ([8/1000, 9/1000, 10/1000] : List ℚ)) (1 + 3))).drop
                (1 - 2))).filter (fun q => decide (0 < q.2))).map
          (fun q => (Real.log ((|q.1 - ([8/1000, 9/1000, 10/1000] : List ℚ).getD 1 0|
              + 1/1000000 : ℚ) : ℝ), Real.log ((q.2 : ℚ) : ℝ))))
        = 0 := by
      apply lsSlopeCentered_const_y _ (Real.log ((1 : ℚ) : ℝ))
      intro q hq
      obtain ⟨r, hr, rfl⟩ := List.mem_map.mp hq
      obtain ⟨r1, r2⟩ := r
      have hzip := (List.mem_filter.mp hr).1
      have hmem : r2 ∈ ([1, 1, 1] : List ℚ) := (List.of_mem_zip hzip).2
      have h1 : r2 = 1 := by
        rcases List.mem_cons.mp hmem with h | h
        · exact h
        rcases List.mem_cons.mp h with h' | h'
        · exact h'
        rcases List.mem_cons.mp h' with h'' | h''
        · exact h''
        · exact absurd h'' (List.not_mem_nil r2)
      simp [h1]
    rw [hslope]
    norm_num

/-- C5 (amended): the source β estimate equals the claim's
window/valid-pair/regression/clamp procedure *under the source's
additional guards*: more than 3 susceptibility entries and a peak not
at index 0 (with fewer pairs or failing guards it stays at the default
0.37). -/
theorem beta_estimate_with_source_guards (ps cs ss : List ℚ) :
    betaFromScan ps cs ss = betaSpecAmended ps cs ss := by
  simp only [betaFromScan, betaSpecAmended]
  set peak := idxOfMax cs with hdefpeak
  set pW := (ps.take (min ps.length (peak + 3))).drop (peak - 2) with hdefpW
  set sW := (ss.take (min ps.length (peak + 3))).drop (peak - 2) with hdefsW
  set pairs := (pW.zip sW).filter (fun q => decide (0 < q.2)) with hdefpairs
  by_cases h1 : 3 < ss.length ∧ 0 < peak
  · rw [if_pos h1]
    by_cases h3 : 2 < pairs.length
    · have hpw : 2 < pW.length := by
        have hle : pairs.length ≤ (pW.zip sW).length := List.length_filter_le _ _
        rw [List.length_zip] at hle
        have := min_le_left pW.length sW.length
        omega
      have hany : sW.any (fun s => decide (0 < s)) = true := by
        have hne : pairs ≠ [] := by
          intro hnil
          rw [hnil] at h3
          simp at h3
        obtain ⟨q, hq⟩ := List.exists_mem_of_ne_nil pairs hne
        have hq' := List.mem_filter.mp hq
        obtain ⟨a, b⟩ := q
        exact List.any_eq_true.mpr ⟨b, (List.of_mem_zip hq'.1).2, hq'.2⟩
      rw [if_pos ⟨hpw, hany⟩, if_pos h3, if_pos ⟨h1.1, h1.2, by omega⟩]
      rw [lsSlope_eq_centered]
      intro hnil
      have h0 := congrArg List.length hnil
      rw [List.length_map, List.length_nil] at h0
      omega
    · have hno : ¬(3 < ss.length ∧ 0 < peak ∧ 3 ≤ pairs.length) := by
        intro hc
        exact h3 (by omega)
      conv_rhs => rw [if_neg hno]
      by_cases h2 : 2 < pW.length ∧ sW.any (fun s => decide (0 < s)) = true
      · rw [if_pos h2, if_neg h3]
      · rw [if_neg h2]
  · have hno2 : ¬(3 < ss.length ∧ 0 < peak ∧ 3 ≤ pairs.length) :=
      fun hc => h1 ⟨hc.1, hc.2.1⟩
    rw [if_neg h1, if_neg hno2]
